import Mathlib

/-
Shallow embedding of the Pterodactyl Daemon filesystem controller
(src/controllers/fs.js) and proofs about its behaviour.

JS strings are modelled as lists of characters (`JStr`).  The sandboxed
path resolver `server.path` lives outside this file's source (it belongs
to the owning server instance), so it is modelled from the spec as a pure
join of the sandbox root and the relative path.  Batch orchestration
(`Async.eachOfLimit`, `Async.eachLimit`) is modelled sequentially in
submission order: all argument checks in the iteratees are synchronous,
so with every per-item filesystem result known the first error in index
order is the error the aggregate callback receives.
-/

namespace Daemon

deriving instance DecidableEq for Except

/-- A JS string, modelled as its list of characters. -/
abbrev JStr := List Char

/-- Convert a Lean string literal to the `JStr` model. -/
def str (s : String) : JStr := s.data

/-- Modelled from the spec: the owning server instance's `path()` resolver
(spec section 4.1 and section 6) is not part of src/; per the spec it is a pure
join of the sandbox root and the caller-supplied relative path, which
"always returns a path anchored under the sandbox root by prefixing/joining"
and performs no canonicalisation.  `path()` with no argument (the empty
relative path) returns the sandbox root itself. -/
def resolve (root rel : JStr) : JStr :=
  if rel = [] then root else root ++ '/' :: rel

/-- A JS value as passed to the polymorphic scalar-or-sequence arguments:
a string, an array of strings, or any other value carrying the string the
JS runtime coerces it to (`ToString`; arrays join their elements with
commas). -/
inductive JVal
  | jstr (s : JStr)
  | jarr (xs : List JStr)
  | other (coerced : JStr)
  deriving DecidableEq

/-- JS `ToString` coercion: arrays join their elements with commas. -/
def jsArrToString (xs : List JStr) : JStr := List.intercalate [','] xs

/-- JS `ToString` coercion of an arbitrary value. -/
def jsToString : JVal → JStr
  | JVal.jstr s => s
  | JVal.jarr xs => jsArrToString xs
  | JVal.other c => c

/-- `_.isArray`. -/
def isArr : JVal → Bool
  | JVal.jarr _ => true
  | _ => false

/-- The element list of an array value (meaningful only on `jarr`). -/
def asArr : JVal → List JStr
  | JVal.jarr xs => xs
  | _ => []

/-- Embedding of `FileSystem.isSelf` (fs.js lines 71-85) on two already
resolved paths: true when `target` equals `source` or extends it with a
path-separator boundary (`_.startsWith(target, source)` then the sliced
remainder is empty or starts with a slash). -/
def isSelfResolved (target source : JStr) : Bool :=
  if source.isPrefixOf target then
    match target.drop source.length with
    | [] => true
    | c :: _ => c == '/'
  else false

/-- Embedding of `FileSystem.isSelf` (fs.js lines 71-85): resolves both
arguments through the sandbox resolver, then runs the prefix test. -/
def isSelf (root moveTo moveFrom : JStr) : Bool :=
  isSelfResolved (resolve root moveTo) (resolve root moveFrom)

/-- The error kinds surfaced by the controller (spec section 7), each matching
one `new Error(...)` site in fs.js; `raw` carries an underlying
filesystem error message passed through unwrapped. -/
inductive FsErr
  | selfMove
  | selfCompress
  | typeMismatch
  | lengthMismatch
  | notAFile
  | notADirectory
  | tooLarge
  | invalidArgumentType
  | noValidEntries
  | toNotString
  | protectedPath
  | raw (msg : JStr)
  deriving DecidableEq

/-- Does an `Fs.move` callback error message count as benign?  fs.js treats
a message starting with `EEXIST:` as success (idempotent retry tolerance). -/
def benignMoveErr (msg : JStr) : Bool := (str "EEXIST:").isPrefixOf msg

/-- Embedding of the single-pair branch of `FileSystem.move`
(fs.js lines 178-185).  `fsMove` gives each underlying `Fs.move` call's
callback error message (`none` = success).  Returns the resolved
(from, to) pairs handed to `Fs.move` plus the error delivered to `next`. -/
def moveSingle (root : JStr) (fsMove : JStr → JStr → Option JStr)
    (initial ending : JStr) : List (JStr × JStr) × Option FsErr :=
  if isSelf root ending initial then ([], some FsErr.selfMove)
  else
    let mfrom := resolve root initial
    let mto := resolve root ending
    match fsMove mfrom mto with
    | none => ([(mfrom, mto)], none)
    | some msg =>
      if benignMoveErr msg then ([(mfrom, mto)], none)
      else ([(mfrom, mto)], some (FsErr.raw msg))

/-- Embedding of the `Async.eachOfLimit` loop in the (array, array) branch of
`FileSystem.move` (fs.js lines 189-201), sequentialised in index order.
Per iteration the code first tests `_.isUndefined(ending[key])`, then calls
`this.isSelf(ending, initial)` — note: with the whole ARRAYS as arguments,
which the resolver stringifies — and only then hands the pair to `Fs.move`
with the `EEXIST:` message treated as success. -/
def moveBatchAux (root : JStr) (fsMove : JStr → JStr → Option JStr)
    (iniArr endArr : List JStr) : List JStr → Nat → List (JStr × JStr) × Option FsErr
  | [], _ => ([], none)
  | value :: rest, key =>
    match endArr[key]? with
    | none => ([], some FsErr.lengthMismatch)
    | some endv =>
      if isSelf root (jsArrToString endArr) (jsArrToString iniArr) then
        ([], some FsErr.selfMove)
      else
        let mfrom := resolve root value
        let mto := resolve root endv
        match fsMove mfrom mto with
        | none =>
          let r := moveBatchAux root fsMove iniArr endArr rest (key + 1)
          ((mfrom, mto) :: r.1, r.2)
        | some msg =>
          if benignMoveErr msg then
            let r := moveBatchAux root fsMove iniArr endArr rest (key + 1)
            ((mfrom, mto) :: r.1, r.2)
          else ([(mfrom, mto)], some (FsErr.raw msg))

/-- Embedding of `FileSystem.move` (fs.js lines 177-203): dispatch on
`_.isArray` of the two arguments — both non-arrays go to the single-pair
branch (after string coercion), exactly one array is a type mismatch, and
two arrays run the bounded batch loop. -/
def move (root : JStr) (fsMove : JStr → JStr → Option JStr)
    (initial ending : JVal) : List (JStr × JStr) × Option FsErr :=
  match initial, ending with
  | JVal.jarr ia, JVal.jarr ea => moveBatchAux root fsMove ia ea ia 0
  | JVal.jarr _, _ => ([], some FsErr.typeMismatch)
  | _, JVal.jarr _ => ([], some FsErr.typeMismatch)
  | i, e => moveSingle root fsMove (jsToString i) (jsToString e)

example :
    move (str "/srv") (fun _ _ => none)
        (JVal.jarr [str "x", str "a"]) (JVal.jarr [str "y", str "a/b"])
      = ([(str "/srv/x", str "/srv/y"), (str "/srv/a", str "/srv/a/b")], none) := by decide

example : isSelf (str "/srv") (str "a/b") (str "a") = true := by decide

example :
    (move (str "/srv") (fun _ _ => none)
        (JVal.jarr [str "a"]) (JVal.jarr [str "b", str "c"])).2 = none := by decide

example :
    (move (str "/srv") (fun _ _ => none)
        (JVal.jarr [str "a", str "b"]) (JVal.jarr [str "c"])).2
      = some FsErr.lengthMismatch := by decide

example :
    (move (str "/srv") (fun _ _ => none)
        (JVal.jarr [str "a"]) (JVal.jstr (str "b"))).2 = some FsErr.typeMismatch := by decide

/-- Embedding of `fromFile.substring(0, _.lastIndexOf(fromFile, '/'))`
(fs.js lines 208 and 217): the characters strictly before the last slash;
when no slash occurs the JS `substring(0, -1)` clamps to the empty string. -/
def beforeLastSlash : JStr → JStr
  | [] => []
  | c :: rest => if rest.contains '/' then c :: beforeLastSlash rest else []

example : beforeLastSlash (str "/srv/a/b.tar") = str "/srv/a" := by decide
example : beforeLastSlash (str "/srv/a/b.tar/") = str "/srv/a/b.tar" := by decide
example : beforeLastSlash (str "abc") = str "" := by decide

/-- A decompression-engine invocation: `decompressEngine(fromFile, toDir,
strip 1)` — the side effect that unpacks (mutates the filesystem). -/
inductive DAct
  | run (fromFile toDir : JStr)
  deriving DecidableEq

/-- The engine invocation the scalar branch of `FileSystem.decompress`
builds for one archive path: destination is the containing directory of
the resolved archive. -/
def decompressOne (root : JStr) (file : JStr) : DAct :=
  DAct.run (resolve root file) (beforeLastSlash (resolve root file))

/-- Embedding of the dispatch and per-archive engine calls of
`FileSystem.decompress` (fs.js lines 205-227): `!_.isArray` takes the
scalar branch (any non-array value is coerced and treated as one path),
`_.isArray` fans out over the elements, and the trailing `else` error
branch is kept exactly as the code has it.  The completion-callback
behaviour of the array branch is modelled separately by
`decompressArrTrace`. -/
def decompressOp (root : JStr) (files : JVal) : List DAct × Option FsErr :=
  if isArr files = false then
    ([decompressOne root (jsToString files)], none)
  else if isArr files = true then
    ((asArr files).map (fun f => decompressOne root f), none)
  else
    ([], some FsErr.invalidArgumentType)

/-- The claim's notion of self-containment, from the spec's words: the
destination path is equal to or a descendant of the source path, compared
as filesystem paths (trailing separators immaterial).  Used only to state
the C3 counterexample against the code's behaviour. -/
def dropTrailingSlashes (s : JStr) : JStr :=
  (s.reverse.dropWhile (fun c => c == '/')).reverse

/-- The claim's destination-inside-source predicate (spec's words). -/
def pathDescEq (dest src : JStr) : Bool :=
  let d := dropTrailingSlashes dest
  let s := dropTrailingSlashes src
  d == s || (s ++ ['/']).isPrefixOf d

example :
    pathDescEq (beforeLastSlash (resolve (str "/srv") (str "a/b.tar/")))
        (resolve (str "/srv") (str "a/b.tar/")) = true := by decide

example :
    decompressOp (str "/srv") (JVal.jstr (str "a/b.tar/"))
      = ([DAct.run (str "/srv/a/b.tar/") (str "/srv/a/b.tar")], none) := by decide

/-- Events observable from the array branch of `FileSystem.decompress`:
archive `i`'s engine promise settles, or the overall completion callback
`next` is invoked. -/
inductive BEv
  | settled (i : Nat)
  | nextCall
  deriving DecidableEq

/-- Trace of the `Async.eachLimit` loop of `FileSystem.decompress`
(fs.js lines 214-223) with the archives settling in index order, given each
archive's engine success flag.  The code's `.then(() => { next(); })`
invokes the OVERALL callback on each per-archive success — the per-item
`callback` is only reached through `.catch` — and a failure's
`callback(err)` makes `Async.eachLimit` fire the final `next` once.
Settlements after the first failure are omitted (they only add further
events). -/
def decompressArrTrace : List Bool → Nat → List BEv
  | [], _ => []
  | ok :: rest, i =>
    if ok then BEv.settled i :: BEv.nextCall :: decompressArrTrace rest (i + 1)
    else [BEv.settled i, BEv.nextCall]

example :
    decompressArrTrace [true, true] 0
      = [BEv.settled 0, BEv.nextCall, BEv.settled 1, BEv.nextCall] := by decide

/-- A regular-file target as `readEnd`/`read` see it: the `stat.isFile()`
flag and the file's bytes (so `stat.size` is the length of the content). -/
structure FNode where
  isFile : Bool
  content : List Nat
  deriving DecidableEq

/-- The default applied by the `_.isFunction(bytes)` argument shuffle at the
top of `FileSystem.readEnd` (fs.js lines 113-116): an omitted byte bound is
80000. -/
def maxBytesOf : Option Nat → Nat
  | none => 80000
  | some b => b

/-- `Fs.createReadStream` with an optional `{start, end}` range: no options
reads the whole file; a range reads the bytes at offsets `start..end`
INCLUSIVE, stopping at end of file. -/
def streamRead (content : List Nat) : Option (Nat × Nat) → List Nat
  | none => content
  | some (s, e) => (content.take (e + 1)).drop s

/-- Embedding of `FileSystem.readEnd` (fs.js lines 112-138): fail with the
not-a-file error when the target is not a regular file (no size ceiling);
otherwise stream either the whole file or, when the size exceeds the
bound, the range `{start: size - bytes, end: size}`, concatenating the
chunks in arrival order. -/
def readEnd (f : FNode) (bytes : Option Nat) : Except FsErr (List Nat) :=
  let maxB := maxBytesOf bytes
  if f.isFile = false then Except.error FsErr.notAFile
  else
    let size := f.content.length
    let opts : Option (Nat × Nat) :=
      if size > maxB then some (size - maxB, size) else none
    Except.ok (streamRead f.content opts)

/-- Embedding of `FileSystem.read` (fs.js lines 99-110): not-a-file check,
then the 10,000,000-byte ceiling, then the whole content. -/
def readOp (f : FNode) : Except FsErr (List Nat) :=
  if f.isFile = false then Except.error FsErr.notAFile
  else if f.content.length > 10000000 then Except.error FsErr.tooLarge
  else Except.ok f.content

example : readEnd ⟨true, [1, 2, 3]⟩ (some 5) = Except.ok [1, 2, 3] := by decide
example : readEnd ⟨true, [1, 2, 3, 4, 5]⟩ (some 2) = Except.ok [4, 5] := by decide
example : readEnd ⟨false, [1, 2, 3]⟩ none = Except.error FsErr.notAFile := by decide

/-- The fields of an `Fs.stat` result that the controller reads. -/
structure StatData where
  ctime : Nat
  mtime : Nat
  birthtime : Nat
  size : Nat
  isDir : Bool
  isFile : Bool
  isSym : Bool
  deriving DecidableEq

/-- The metadata record both `FileSystem.stat` and `FileSystem.directory`
produce for one entry (the wire contract of spec section 6). -/
structure FileMeta where
  name : JStr
  created : Nat
  modified : Nat
  size : Nat
  directory : Bool
  file : Bool
  symlink : Bool
  mime : JStr
  deriving DecidableEq

/-- JS `result || 'unknown'`: a missing or falsy (empty-string) MIME
detection result degrades to the sentinel. -/
def jsOr (r : Option JStr) : JStr :=
  match r with
  | some m => if m = [] then str "unknown" else m
  | none => str "unknown"

/-- `Path.parse(p).base`: the final path component (approximated
character-wise; no claim depends on its exact trailing-slash behaviour). -/
def baseName : JStr → JStr
  | [] => []
  | c :: rest =>
    if rest.contains '/' then baseName rest
    else if c == '/' then rest else c :: rest

/-- Embedding of `FileSystem.stat` (fs.js lines 159-175) for a path whose
`Fs.stat` succeeded (the claims only concern that case): the MIME callback
pair (`mimeErr`, `mimeRes`) is consumed by `result || 'unknown'` — the
error is never inspected, so detection failure cannot fail the call. -/
def statOp (pname : JStr) (st : StatData) (mimeErr mimeRes : Option JStr) :
    Except FsErr FileMeta :=
  Except.ok
    { name := baseName pname
      created := st.ctime
      modified := st.mtime
      size := st.size
      directory := st.isDir
      file := st.isFile
      symlink := st.isSym
      mime := jsOr mimeRes }

/-- One child of the listed directory, with the outcomes of its
concurrent `do_stat` and `do_mime` tasks (`Async.auto`, fs.js lines
299-323): a stat error or a MIME error each abort the `auto` with that
error. -/
structure DirEntry where
  name : JStr
  statRes : Except JStr StatData
  mimeErr : Option JStr
  mimeRes : Option JStr

/-- The `Async.auto` block for one directory child: `do_stat` and `do_mime`
both feed `do_push`; either task's error aborts the block (stat errors
checked first in this sequential model — the order only matters when both
fail).  Note `directory` uses `birthtime` for `created` where `stat` uses
`ctime`. -/
def entryMeta (e : DirEntry) : Except JStr FileMeta :=
  match e.statRes with
  | Except.error msg => Except.error msg
  | Except.ok st =>
    match e.mimeErr with
    | some msg => Except.error msg
    | none =>
      Except.ok
        { name := e.name
          created := st.birthtime
          modified := st.mtime
          size := st.size
          directory := st.isDir
          file := st.isFile
          symlink := st.isSym
          mime := jsOr e.mimeRes }

/-- The `Async.each` fan-out over the children: the first entry error
aborts the whole listing. -/
def collectMetas : List DirEntry → Except JStr (List FileMeta)
  | [] => Except.ok []
  | e :: rest =>
    match entryMeta e with
    | Except.error m => Except.error m
    | Except.ok fm =>
      match collectMetas rest with
      | Except.error m => Except.error m
      | Except.ok fms => Except.ok (fm :: fms)

/-- Lexicographic order on JS strings (character code order). -/
def jstrLe : JStr → JStr → Bool
  | [], _ => true
  | _ :: _, [] => false
  | a :: xs, b :: ys => if a == b then jstrLe xs ys else decide (a < b)

/-- The `_.sortBy` key comparison of fs.js line 327: primarily the
lower-cased name (`_.lowerCase` approximated character-wise; no claim
depends on its word-splitting), secondarily the `created` time. -/
def metaLe (a b : FileMeta) : Bool :=
  let la := a.name.map Char.toLower
  let lb := b.name.map Char.toLower
  if la == lb then decide (a.created ≤ b.created) else jstrLe la lb

/-- Stable insertion into a sorted list of metadata records. -/
def insertMeta (m : FileMeta) : List FileMeta → List FileMeta
  | [] => [m]
  | x :: xs => if metaLe m x then m :: x :: xs else x :: insertMeta m xs

/-- The deterministic final ordering (`_.sortBy`). -/
def sortFiles : List FileMeta → List FileMeta
  | [] => []
  | x :: xs => insertMeta x (sortFiles xs)

/-- Whether an `Except` carries a success. -/
def exceptIsOk {ε α : Type} : Except ε α → Bool
  | Except.ok _ => true
  | Except.error _ => false

/-- Embedding of `FileSystem.directory` (fs.js lines 282-329): the
not-a-directory check, then the per-child stat+mime fan-out whose first
error aborts the listing, then the deterministic sort.  (On the error
path the code passes the partially collected, sorted list alongside the
error; the `Except` model keeps only the fact that the listing failed.) -/
def directoryOp (isDir : Bool) (entries : List DirEntry) :
    Except FsErr (List FileMeta) :=
  if isDir = false then Except.error FsErr.notADirectory
  else
    match collectMetas entries with
    | Except.error m => Except.error (FsErr.raw m)
    | Except.ok fms => Except.ok (sortFiles fms)

example :
    directoryOp true
        [{ name := str "a", statRes := Except.ok ⟨1, 2, 3, 4, false, true, false⟩,
           mimeErr := some (str "detect failed"), mimeRes := none }]
      = Except.error (FsErr.raw (str "detect failed")) := by rfl

/-- The server-instance state the watcher callback touches: the
known-write flag and the in-memory configuration document (of an
arbitrary JSON-value type `J`). -/
structure SrvState (J : Type) where
  knownWrite : Bool
  json : J
  deriving DecidableEq

/-- The `Fs.readJson` callback inside the watcher (fs.js lines 50-65), run
against the state as it stands when the callback fires: a parse error sets
the flag and rewrites the file from the in-memory document (the returned
list holds the payloads written back); a parsed value replaces the
in-memory document. -/
def readJsonCb {J : Type} (st : SrvState J) (parse : Except JStr J) :
    SrvState J × List J :=
  match parse with
  | Except.error _ => ({ st with knownWrite := true }, [st.json])
  | Except.ok o => ({ st with json := o }, [])

/-- Embedding of the watcher `change` handler installed by the
`FileSystem` constructor (fs.js lines 47-68), with the single-threaded
event ordering made explicit: the guard `knownWrite !== true` decides
whether `Fs.readJson` is initiated, the synchronous trailing statement
`knownWrite = false` runs first, and the asynchronous `readJson` callback
(if initiated) then runs against that updated state.  `parse` is the
outcome of parsing the on-disk file. -/
def onChange {J : Type} (st : SrvState J) (parse : Except JStr J) :
    SrvState J × List J :=
  let scheduled := st.knownWrite ≠ true
  let st1 : SrvState J := { st with knownWrite := false }
  if scheduled then readJsonCb st1 parse else (st1, [])

example :
    onChange (⟨true, 7⟩ : SrvState Nat) (Except.ok 9) = (⟨false, 7⟩, []) := by decide
example :
    onChange (⟨false, 7⟩ : SrvState Nat) (Except.ok 9) = (⟨false, 9⟩, []) := by decide
example :
    onChange (⟨false, 7⟩ : SrvState Nat) (Except.error (str "bad"))
      = (⟨true, 7⟩, [7]) := by decide

/-- A tar-stream invocation of the compress path: pack one source, or pack
an explicit entry list against a base directory, into the destination
archive file. -/
inductive CAct
  | packSingle (src dest : JStr)
  | packEntries (base dest : JStr) (entries : List JStr)
  deriving DecidableEq

/-- `Path.join(a, b)` for the destination archive file. -/
def pathJoin (a b : JStr) : JStr := a ++ '/' :: b

/-- `_.replace(s, pat, '')`: remove the first occurrence of `pat` from `s`
(used with `s = server.path(file)` and `pat = server.path()` to express an
entry relative to the sandbox root, fs.js line 258). -/
def stripFirst : JStr → JStr → JStr
  | [], _ => []
  | c :: rest, pat =>
    if pat.isPrefixOf (c :: rest) then (c :: rest).drop pat.length
    else c :: stripFirst rest pat

example : stripFirst (str "/srv/a/b") (str "/srv") = str "/a/b" := by decide

/-- Embedding of the multi-source branch of `FileSystem.compress`
(fs.js lines 248-276): each source with `isSelf(to, file)` true is skipped
by a bare `eachCallback()` (no error); the rest are pushed as
root-relative entries in submission order; an empty entry list fails with
the no-valid-entries error (bypassing the series callback, so no name is
returned); otherwise one tar stream packs exactly those entries and the
series' completion returns the generated archive name — also alongside a
stream error, per `next(err, SaveAsName)`.  `name` stands for the
`ptdlfm.<random>.tar` name generated for this call and `streamErr` for the
write stream's outcome. -/
def compressArr (root name : JStr) (files : List JStr) (toDir : JStr)
    (streamErr : Option JStr) : List CAct × Option FsErr × Option JStr :=
  let entries :=
    (files.filter (fun f => !(isSelf root toDir f))).map
      (fun f => stripFirst (resolve root f) (resolve root []))
  if entries = [] then ([], some FsErr.noValidEntries, none)
  else
    let act := CAct.packEntries (resolve root []) (pathJoin (resolve root toDir) name) entries
    match streamErr with
    | none => ([act], none, some name)
    | some m => ([act], some (FsErr.raw m), some name)

/-- Embedding of `FileSystem.compress` (fs.js lines 231-280): the `to`
argument must be a string; a single source is rejected with the
self-compress error when the destination sits inside it, otherwise packed
whole; an array of sources runs the skip-and-collect branch. -/
def compressOp (root name : JStr) (files toV : JVal)
    (streamErr : Option JStr) : List CAct × Option FsErr × Option JStr :=
  match toV with
  | JVal.jstr toS =>
    if isArr files = false then
      if isSelf root toS (jsToString files) then ([], some FsErr.selfCompress, none)
      else
        let act := CAct.packSingle (resolve root (jsToString files))
          (pathJoin (resolve root toS) name)
        match streamErr with
        | none => ([act], none, some name)
        | some m => ([act], some (FsErr.raw m), none)
    else compressArr root name (asArr files) toS streamErr
  | _ => ([], some FsErr.toNotString, none)

example :
    compressArr (str "/srv") (str "ptdlfm.abc.tar") [str "a", str "b"] (str "a/sub") none
      = ([CAct.packEntries (str "/srv") (str "/srv/a/sub/ptdlfm.abc.tar") [str "/b"]],
         none, some (str "ptdlfm.abc.tar")) := by decide

example :
    compressArr (str "/srv") (str "ptdlfm.abc.tar") [str "a"] (str "a/sub") none
      = ([], some FsErr.noValidEntries, none) := by decide

/-- The options object passed to `FileSystem.copy`, with each key either
present (`some`) or absent (`none`).  `preserveTimestamps` is the
documented option name; `timestamps` is the key the implementation reads. -/
structure JOpts where
  clobber : Option Bool
  timestamps : Option Bool
  preserveTimestamps : Option Bool
  deriving DecidableEq

/-- JS `v || false` on an optional boolean property. -/
def jsOrFalse : Option Bool → Bool
  | some b => b
  | none => false

/-- The effective `Fs.copy` invocation. -/
structure CopyEff where
  src : JStr
  dest : JStr
  clobber : Bool
  preserveTimestamps : Bool
  deriving DecidableEq

/-- Embedding of `FileSystem.copy` (fs.js lines 148-157): the effective
options are `clobber: opts.clobber || false` and `preserveTimestamps:
opts.timestamps || false` — the latter reads the key named `timestamps`. -/
def copyOp (root path newpath : JStr) (opts : JOpts) : CopyEff :=
  { src := resolve root path
    dest := resolve root newpath
    clobber := jsOrFalse opts.clobber
    preserveTimestamps := jsOrFalse opts.timestamps }

example :
    (copyOp (str "/srv") (str "a") (str "b")
        { clobber := none, timestamps := none, preserveTimestamps := some true }).preserveTimestamps
      = false := by decide

/-! ## Claim theorems -/

/-- C1: on the (array, array) form of `move`, the code never runs the
self-containment check on the index-aligned pairs — it calls
`isSelf(ending, initial)` with the whole arrays.  At `move(["x","a"],
["y","a/b"])` under root `/srv` the per-pair check is true for the pair
`("a", "a/b")`, yet the batch raises no self-move error and the self-move
`/srv/a → /srv/a/b` is handed to the filesystem. -/
theorem c1_array_move_bypasses_pair_check :
    isSelf (str "/srv") (str "a/b") (str "a") = true ∧
    move (str "/srv") (fun _ _ => none)
        (JVal.jarr [str "x", str "a"]) (JVal.jarr [str "y", str "a/b"])
      = ([(str "/srv/x", str "/srv/y"), (str "/srv/a", str "/srv/a/b")], none) := by decide

/-- C2 counterexample: a source sequence SHORTER than the destination
sequence does not fail with the length-mismatch error — `move(["a"],
["b","c"])` moves the one paired entry and completes without error. -/
theorem c2_shorter_source_no_mismatch :
    (move (str "/srv") (fun _ _ => none)
        (JVal.jarr [str "a"]) (JVal.jarr [str "b", str "c"])).2 = none := by decide

/-- The batch loop's only source of the length-mismatch error is an index
beyond the destination array, so a loop whose index range passes the
destination array's length fails with it (given per-pair moves succeed
and the array-level self check is false, so no earlier error preempts). -/
theorem moveBatchAux_mismatch (root : JStr) (fsMove : JStr → JStr → Option JStr)
    (iniArr endArr : List JStr)
    (hself : isSelf root (jsArrToString endArr) (jsArrToString iniArr) = false)
    (hfs : ∀ a b, fsMove a b = none) :
    ∀ (rest : List JStr) (key : Nat), key ≤ endArr.length →
      endArr.length < key + rest.length →
      (moveBatchAux root fsMove iniArr endArr rest key).2 = some FsErr.lengthMismatch := by
  intro rest
  induction rest with
  | nil => intro key hk hlt; simp at hlt; omega
  | cons v rest ih =>
    intro key hk hlt
    by_cases hkey : key < endArr.length
    · have hsome : endArr[key]? = some endArr[key] := List.getElem?_eq_getElem hkey
      simp only [moveBatchAux, hsome, hself, hfs, Bool.false_eq_true, if_false]
      exact ih (key + 1) hkey (by simp at hlt; omega)
    · have hnone : endArr[key]? = none := by
        rw [List.getElem?_eq_none]
        omega
      simp [moveBatchAux, hnone]

/-- C2 (amended): `move` with two sequences fails with the length-mismatch
error when the source sequence is strictly longer than the destination
sequence (given each per-pair move succeeds and the array-level self check
of C1 does not fire); the shorter direction raises no error
(`c2_shorter_source_no_mismatch`). -/
theorem c2_longer_source_length_mismatch (root : JStr)
    (fsMove : JStr → JStr → Option JStr) (ia ea : List JStr)
    (hlen : ea.length < ia.length)
    (hself : isSelf root (jsArrToString ea) (jsArrToString ia) = false)
    (hfs : ∀ a b, fsMove a b = none) :
    (move root fsMove (JVal.jarr ia) (JVal.jarr ea)).2 = some FsErr.lengthMismatch := by
  simpa [move] using
    moveBatchAux_mismatch root fsMove ia ea hself hfs ia 0 (Nat.zero_le _) (by omega)

/-- C2 witness: `move(["a","b"], ["c"])` fails with the length-mismatch
error. -/
theorem c2_witness :
    (move (str "/srv") (fun _ _ => none)
        (JVal.jarr [str "a", str "b"]) (JVal.jarr [str "c"])).2
      = some FsErr.lengthMismatch :=
  c2_longer_source_length_mismatch (str "/srv") (fun _ _ => none)
    [str "a", str "b"] [str "c"] (by decide) (by decide) (fun _ _ => rfl)

/-- The prefix of a string up to its last slash is strictly shorter than
the string. -/
theorem beforeLastSlash_length_lt (s : JStr) (hs : s ≠ []) :
    (beforeLastSlash s).length < s.length := by
  induction s with
  | nil => exact absurd rfl hs
  | cons c rest ih =>
    by_cases h : '/' ∈ rest
    · have hr : rest ≠ [] := by
        rintro rfl
        simp at h
      have hlt := ih hr
      simp [beforeLastSlash, h]
      omega
    · simp [beforeLastSlash, h]

/-- A strictly longer string is not a prefix. -/
theorem isPrefixOf_false_of_lt {a b : JStr} (h : b.length < a.length) :
    a.isPrefixOf b = false := by
  cases hp : a.isPrefixOf b with
  | false => rfl
  | true =>
    have hpre : a <+: b := List.isPrefixOf_iff_prefix.mp hp
    have := hpre.length_le
    omega

/-- Resolved paths are nonempty when the sandbox root is. -/
theorem resolve_ne_nil (root rel : JStr) (hroot : root ≠ []) :
    resolve root rel ≠ [] := by
  unfold resolve
  by_cases h : rel = []
  · simpa [h] using hroot
  · simp [h]

/-- The containing directory derived by `decompress` never satisfies the
code's own self-containment predicate against the archive path. -/
theorem isSelfResolved_beforeLastSlash (ff : JStr) (hff : ff ≠ []) :
    isSelfResolved (beforeLastSlash ff) ff = false := by
  have hlt := beforeLastSlash_length_lt ff hff
  unfold isSelfResolved
  rw [isPrefixOf_false_of_lt hlt]
  simp

/-- C3 counterexample: an archive path given with a trailing slash makes
the derived extraction destination path-semantically EQUAL to the archive
source path, yet `decompress` raises no self-containment error and invokes
the extraction engine (mutating the filesystem) anyway. -/
theorem c3_counterexample :
    pathDescEq (beforeLastSlash (resolve (str "/srv") (str "a/b.tar/")))
        (resolve (str "/srv") (str "a/b.tar/")) = true ∧
    decompressOp (str "/srv") (JVal.jstr (str "a/b.tar/"))
      = ([DAct.run (str "/srv/a/b.tar/") (str "/srv/a/b.tar")], none) := by decide

/-- C3 (amended): `decompress` performs no self-containment check and can
never reject with a self-containment error — for every scalar call the
extraction destination is derived as the prefix of the resolved archive
path up to its last separator (the containing directory), extraction is
always attempted there, and under the code's own `isSelf` predicate that
destination is never at or under the archive path. -/
theorem c3_no_self_check (root file : JStr) (hroot : root ≠ []) :
    decompressOp root (JVal.jstr file)
      = ([DAct.run (resolve root file) (beforeLastSlash (resolve root file))], none) ∧
    isSelfResolved (beforeLastSlash (resolve root file)) (resolve root file) = false := by
  constructor
  · rfl
  · exact isSelfResolved_beforeLastSlash _ (resolve_ne_nil root file hroot)

/-- C3 witness: the amended statement at root `/srv`, archive `a/b.tar`. -/
theorem c3_witness :
    decompressOp (str "/srv") (JVal.jstr (str "a/b.tar"))
      = ([DAct.run (resolve (str "/srv") (str "a/b.tar"))
            (beforeLastSlash (resolve (str "/srv") (str "a/b.tar")))], none) ∧
    isSelfResolved (beforeLastSlash (resolve (str "/srv") (str "a/b.tar")))
        (resolve (str "/srv") (str "a/b.tar")) = false :=
  c3_no_self_check (str "/srv") (str "a/b.tar") (by decide)

/-- C4: the `InvalidArgumentType` branch of `decompress` is unreachable —
the dispatch is `!isArray` (scalar) / `isArray` (sequence), which is
exhaustive — so no call ever fails with that error; a value that is
neither a path nor a sequence (for example the number 42) is coerced and
treated as a scalar path, and extraction is attempted. -/
theorem c4_invalid_type_branch_unreachable :
    (∀ (root : JStr) (v : JVal), (decompressOp root v).2 ≠ some FsErr.invalidArgumentType) ∧
    decompressOp (str "/srv") (JVal.other (str "42"))
      = ([DAct.run (str "/srv/42") (str "/srv")], none) := by
  refine ⟨?_, by decide⟩
  intro root v
  cases v <;> simp [decompressOp, isArr]

/-- C5: in the array branch of `decompress`, each successful archive's
`.then` invokes the OVERALL completion callback `next` instead of the
per-item callback: with two archives both succeeding, the completion
callback fires twice, the first time before the second archive has
settled, contradicting delivered-exactly-once-after-all-settle. -/
theorem c5_early_completion :
    (decompressArrTrace [true, true] 0).count BEv.nextCall = 2 ∧
    decompressArrTrace [true, true] 0
      = [BEv.settled 0, BEv.nextCall, BEv.settled 1, BEv.nextCall] := by decide

/-- C6: `readEnd` on a non-regular-file target fails with the not-a-file
error with no size ceiling applied; on a regular file whose size is at
most the bound (default 80000 when the argument is omitted) it returns
the entire content; and when the size exceeds the bound it returns
exactly the last `maxBytes` bytes — of length `maxBytes` and a
byte-for-byte suffix of the full content. -/
theorem c6_read_tail (f : FNode) (bytes : Option Nat) :
    (f.isFile = false → readEnd f bytes = Except.error FsErr.notAFile) ∧
    (f.isFile = true → f.content.length ≤ maxBytesOf bytes →
      readEnd f bytes = Except.ok f.content) ∧
    (f.isFile = true → maxBytesOf bytes < f.content.length →
      readEnd f bytes = Except.ok (f.content.drop (f.content.length - maxBytesOf bytes)) ∧
      (f.content.drop (f.content.length - maxBytesOf bytes)).length = maxBytesOf bytes ∧
      f.content.drop (f.content.length - maxBytesOf bytes) <:+ f.content) := by
  refine ⟨?_, ?_, ?_⟩
  · intro h
    simp [readEnd, h]
  · intro h hle
    simp [readEnd, h, streamRead, Nat.not_lt.mpr hle]
  · intro h hgt
    refine ⟨?_, ?_, List.drop_suffix _ _⟩
    · simp only [readEnd, h, Bool.true_eq_false, if_false, if_pos hgt, streamRead]
      rw [List.take_of_length_le (Nat.le_succ _)]
    · rw [List.length_drop]
      omega

/-- C6 witness: the three cases of `c6_read_tail` at concrete files — a
non-file target, a 3-byte file read with bound 5, and a 5-byte file read
with bound 2 (yielding the last 2 bytes). -/
theorem c6_witness :
    readEnd ⟨false, [1, 2, 3]⟩ none = Except.error FsErr.notAFile ∧
    readEnd ⟨true, [1, 2, 3]⟩ (some 5) = Except.ok [1, 2, 3] ∧
    readEnd ⟨true, [1, 2, 3, 4, 5]⟩ (some 2) = Except.ok [4, 5] := by
  refine ⟨(c6_read_tail ⟨false, [1, 2, 3]⟩ none).1 rfl,
          (c6_read_tail ⟨true, [1, 2, 3]⟩ (some 5)).2.1 rfl (by decide), ?_⟩
  have h := ((c6_read_tail ⟨true, [1, 2, 3, 4, 5]⟩ (some 2)).2.2 rfl (by decide)).1
  simpa using h

/-- A failing entry anywhere in the child list makes the fan-out abort. -/
theorem collectMetas_err_of_mem {entries : List DirEntry} {e : DirEntry}
    (hmem : e ∈ entries) (he : exceptIsOk (entryMeta e) = false) :
    exceptIsOk (collectMetas entries) = false := by
  induction entries with
  | nil => cases hmem
  | cons x rest ih =>
    cases hmem with
    | head =>
      cases hx : entryMeta e with
      | error m => simp [collectMetas, hx, exceptIsOk]
      | ok fm => rw [hx] at he; simp [exceptIsOk] at he
    | tail _ hm =>
      have hr := ih hm
      cases hx : entryMeta x with
      | error m => simp [collectMetas, hx, exceptIsOk]
      | ok fm =>
        cases hc : collectMetas rest with
        | error m => simp [collectMetas, hx, hc, exceptIsOk]
        | ok fms => rw [hc] at hr; simp [exceptIsOk] at hr

/-- C7 counterexample: one directory child whose stat succeeded but whose
MIME detection failed makes the whole listing fail with that error,
instead of degrading the entry's mime field to the sentinel. -/
theorem c7_counterexample :
    directoryOp true
        [{ name := str "a", statRes := Except.ok ⟨1, 2, 3, 4, false, true, false⟩,
           mimeErr := some (str "detect failed"), mimeRes := none }]
      = Except.error (FsErr.raw (str "detect failed")) := by rfl

/-- C7 (amended): in `stat` a MIME detection failure is never inspected, so
the call still succeeds with the mime field degraded to the sentinel
`unknown`; in the directory listing, however, a MIME detection error is
passed through the per-child `Async.auto` and aborts the whole listing. -/
theorem c7_amended (pname : JStr) (st : StatData) (mimeErr : Option JStr)
    (entries : List DirEntry) (e : DirEntry) (stq : StatData) (msg : JStr)
    (hmem : e ∈ entries) (hstat : e.statRes = Except.ok stq)
    (hmime : e.mimeErr = some msg) :
    statOp pname st mimeErr none
      = Except.ok
          { name := baseName pname, created := st.ctime, modified := st.mtime,
            size := st.size, directory := st.isDir, file := st.isFile,
            symlink := st.isSym, mime := str "unknown" } ∧
    exceptIsOk (directoryOp true entries) = false := by
  constructor
  · simp [statOp, jsOr]
  · have he : exceptIsOk (entryMeta e) = false := by
      simp [entryMeta, hstat, hmime, exceptIsOk]
    have hc := collectMetas_err_of_mem hmem he
    cases hcoll : collectMetas entries with
    | error m => simp [directoryOp, hcoll, exceptIsOk]
    | ok fms => rw [hcoll] at hc; simp [exceptIsOk] at hc

/-- C7 witness: `stat` with a failed MIME detection still succeeds with
mime `unknown`; a one-child listing with a failed MIME detection fails. -/
theorem c7_witness :
    statOp (str "/srv/x") ⟨1, 2, 3, 4, false, true, false⟩ (some (str "boom")) none
      = Except.ok
          { name := baseName (str "/srv/x"), created := 1, modified := 2, size := 4,
            directory := false, file := true, symlink := false, mime := str "unknown" } ∧
    exceptIsOk (directoryOp true
        [⟨str "a", Except.ok ⟨1, 2, 3, 4, false, true, false⟩, some (str "mime boom"), none⟩])
      = false :=
  c7_amended (str "/srv/x") ⟨1, 2, 3, 4, false, true, false⟩ (some (str "boom"))
    [⟨str "a", Except.ok ⟨1, 2, 3, 4, false, true, false⟩, some (str "mime boom"), none⟩]
    ⟨str "a", Except.ok ⟨1, 2, 3, 4, false, true, false⟩, some (str "mime boom"), none⟩
    ⟨1, 2, 3, 4, false, true, false⟩ (str "mime boom") (List.Mem.head _) rfl rfl

/-- C8: the watcher change handler — with the known-write flag set, the
flag is cleared and nothing else happens; with it clear and the file
parsing as valid JSON, the parsed value replaces the in-memory document;
with it clear and the parse failing, the flag ends set, the file is
rewritten once from the current in-memory document, and the in-memory
document is unchanged. -/
theorem c8_config_reconcile {J : Type} (st : SrvState J) (parse : Except JStr J) :
    (st.knownWrite = true →
      onChange st parse = ({ knownWrite := false, json := st.json }, [])) ∧
    (st.knownWrite = false → ∀ o, parse = Except.ok o →
      onChange st parse = ({ knownWrite := false, json := o }, [])) ∧
    (st.knownWrite = false → ∀ m, parse = Except.error m →
      onChange st parse = ({ knownWrite := true, json := st.json }, [st.json])) := by
  refine ⟨?_, ?_, ?_⟩
  · intro h
    simp [onChange, h]
  · intro h o hp
    subst hp
    simp [onChange, h, readJsonCb]
  · intro h m hp
    subst hp
    simp [onChange, h, readJsonCb]

/-- C8 witness: the three transitions at concrete states over `Nat`
documents. -/
theorem c8_witness :
    onChange (⟨true, 7⟩ : SrvState Nat) (Except.ok 9) = (⟨false, 7⟩, []) ∧
    onChange (⟨false, 7⟩ : SrvState Nat) (Except.ok 9) = (⟨false, 9⟩, []) ∧
    onChange (⟨false, 7⟩ : SrvState Nat) (Except.error (str "bad")) = (⟨true, 7⟩, [7]) :=
  ⟨(c8_config_reconcile (⟨true, 7⟩ : SrvState Nat) (Except.ok 9)).1 rfl,
   (c8_config_reconcile (⟨false, 7⟩ : SrvState Nat) (Except.ok 9)).2.1 rfl 9 rfl,
   (c8_config_reconcile (⟨false, 7⟩ : SrvState Nat) (Except.error (str "bad"))).2.2
     rfl (str "bad") rfl⟩

/-- Pointwise-equal functions map a list identically. -/
theorem mapCongrMem {α β : Type} {l : List α} {f g : α → β}
    (h : ∀ a ∈ l, f a = g a) : l.map f = l.map g := by
  induction l with
  | nil => rfl
  | cons x xs ih =>
    simp only [List.map_cons]
    rw [h x (List.Mem.head _), ih (fun a ha => h a (List.Mem.tail _ ha))]

/-- Removing the first occurrence of a leading prefix leaves the rest. -/
theorem stripFirst_append (a b : JStr) : stripFirst (a ++ b) a = b := by
  cases a with
  | nil =>
    cases b with
    | nil => rfl
    | cons c rest => simp [stripFirst, List.isPrefixOf]
  | cons c rest =>
    have hp : (c :: rest).isPrefixOf (c :: rest ++ b) = true :=
      List.isPrefixOf_iff_prefix.mpr (List.prefix_append _ _)
    simp only [List.cons_append] at hp ⊢
    simp only [stripFirst, hp, if_true]
    rw [← List.cons_append, List.drop_left]

/-- The compress entry expression `_.replace(path(file), path(), '')`
computes the sandbox-relative path `'/' + file` for nonempty `file`. -/
theorem stripFirst_resolve (root f : JStr) (hf : f ≠ []) :
    stripFirst (resolve root f) (resolve root []) = '/' :: f := by
  have h1 : resolve root [] = root := by simp [resolve]
  have h2 : resolve root f = root ++ '/' :: f := by simp [resolve, hf]
  rw [h1, h2, stripFirst_append]

/-- C9: the multi-source branch of `compress` silently skips each source
whose self-containment check fires; when all are skipped it fails with the
no-valid-entries error and returns no name; otherwise it packs exactly the
non-skipped sources — each expressed relative to the sandbox root as
`'/' + source` — into one archive under the destination directory, and
returns the generated archive name even when some sources were skipped. -/
theorem c9_compress_skip (root name toDir : JStr) (files : List JStr)
    (hne : ∀ f ∈ files, f ≠ []) :
    ((∀ f ∈ files, isSelf root toDir f = true) →
      compressArr root name files toDir none = ([], some FsErr.noValidEntries, none)) ∧
    ((∃ f ∈ files, isSelf root toDir f = false) →
      compressArr root name files toDir none
        = ([CAct.packEntries (resolve root []) (pathJoin (resolve root toDir) name)
              ((files.filter (fun f => !(isSelf root toDir f))).map (fun f => '/' :: f))],
           none, some name)) := by
  constructor
  · intro hall
    have hfil : files.filter (fun f => !(isSelf root toDir f)) = [] := by
      rw [List.filter_eq_nil_iff]
      intro a ha
      simp [hall a ha]
    simp [compressArr, hfil]
  · intro hex
    obtain ⟨f0, hf0mem, hf0⟩ := hex
    have hmap : (files.filter (fun f => !(isSelf root toDir f))).map
          (fun f => stripFirst (resolve root f) (resolve root []))
        = (files.filter (fun f => !(isSelf root toDir f))).map (fun f => '/' :: f) := by
      apply mapCongrMem
      intro a ha
      exact stripFirst_resolve root a (hne a (List.mem_of_mem_filter ha))
    have hfne : files.filter (fun f => !(isSelf root toDir f)) ≠ [] := by
      intro h
      have := List.filter_eq_nil_iff.mp h f0 hf0mem
      simp [hf0] at this
    have hmne : (files.filter (fun f => !(isSelf root toDir f))).map
        (fun f => '/' :: f) ≠ [] := by
      simpa [List.map_eq_nil_iff] using hfne
    simp only [compressArr, hmap]
    rw [if_neg hmne]

/-- C9 witness: compressing `["a", "b"]` into `a/sub` under root `/srv`
skips the self-referential `a`, packs exactly `/b`, and still returns the
generated archive name. -/
theorem c9_witness :
    compressArr (str "/srv") (str "ptdlfm.abc.tar") [str "a", str "b"] (str "a/sub") none
      = ([CAct.packEntries (resolve (str "/srv") [])
            (pathJoin (resolve (str "/srv") (str "a/sub")) (str "ptdlfm.abc.tar"))
            (([str "a", str "b"].filter
                (fun f => !(isSelf (str "/srv") (str "a/sub") f))).map (fun f => '/' :: f))],
         none, some (str "ptdlfm.abc.tar")) :=
  (c9_compress_skip (str "/srv") (str "ptdlfm.abc.tar") (str "a/sub") [str "a", str "b"]
    (by decide)).2 (by decide)

/-- C10: `copy` builds its effective options by reading the key named
`timestamps`, so an options object carrying the documented
`preserveTimestamps: true` but no `timestamps` key performs the copy
without preserving timestamps. -/
theorem c10_preserve_timestamps_ignored (root path newpath : JStr) (opts : JOpts)
    (hdoc : opts.preserveTimestamps = some true) (himpl : opts.timestamps = none) :
    (copyOp root path newpath opts).preserveTimestamps = false := by
  simp [copyOp, jsOrFalse, himpl]

/-- C10 witness: the concrete options object `{preserveTimestamps: true}`. -/
theorem c10_witness :
    (copyOp (str "/srv") (str "a") (str "b")
        { clobber := none, timestamps := none,
          preserveTimestamps := some true }).preserveTimestamps = false :=
  c10_preserve_timestamps_ignored (str "/srv") (str "a") (str "b")
    { clobber := none, timestamps := none, preserveTimestamps := some true } rfl rfl

end Daemon
